import Mathlib

/-
Verification of "3.3.3 - 1D Segment Tree with Range Updates"
(Section-3-Data-Structures/3.3.3 Segment Tree Range Updates.cpp).

The C++ class `segment_tree<T>` is instantiated in the repository with
`T = int`, `nullv() = std::numeric_limits<int>::min()` and
`merge(a, b) = a > b ? a : b`.  We embed that instantiation shallowly:

* machine `int` values become `Int` (every `int` value satisfies
  `nullv ≤ v`, which appears as a hypothesis where the algebra needs it);
* the two heap-allocated buffers `tree` and `lazy` become total functions
  `Nat → Int` inside a state record `St`; the indeterminate contents of a
  freshly `new`-allocated buffer are modelled by explicit parameters
  `t0 l0 : Nat → Int` of the constructor;
* the recursive member functions become fuel-indexed structural
  recursions.  Every recursive call strictly decreases `hi - lo`, so fuel
  `N` is enough for every call issued by the public wrappers, which start
  from the root range [0, N-1]; the fuel-out branch is unreachable there.
* the member fields `x`, `y`, `val` that the C++ wrappers stash before
  recursing are passed as explicit arguments `x y v`.
-/

/-- `nullv()` of the `int` instantiation: `std::numeric_limits<int>::min()`. -/
def nullv : Int := -2147483648

/-- `merge(a, b) { return a > b ? a : b; }`. -/
def merge (a b : Int) : Int := if a > b then a else b

/-- The mutable state of a `segment_tree<int>` object: the length field
`len` and the two buffers `tree` and `lazy` (modelled as total functions;
the C++ code allocates `4*len` cells for each). -/
structure St where
  len : Nat
  tree : Nat → Int
  lazy : Nat → Int

/-- Pointwise update of a buffer, modelling `f[i] = v`. -/
def setF (f : Nat → Int) (i : Nat) (v : Int) : Nat → Int :=
  fun j => if j = i then v else f j

/-- The push-down step that both `internal_query` (lines 87-91) and
`internal_update` (lines 106-110) perform verbatim before recursing when
the node is partly overlapped:

    if (lazy[node] != nullv()) {
      lazy[Lchild] = lazy[Rchild] = lazy[node];
      lazy[node] = nullv();
    }

Note that it assigns `lazy[node]` over each child's pending value. -/
def pushDown (node : Nat) (s : St) : St :=
  if s.lazy node = nullv then s
  else { s with lazy := setF (setF (setF s.lazy (2*node+1) (s.lazy node))
                                   (2*node+2) (s.lazy node)) node nullv }

/-- `internal_query(node, lo, hi)` with the query bounds `x = lo`, `y = hi`
passed explicitly.  Returns the `int` result together with the state after
the call (the full-overlap branch writes `tree[node] = lazy[node]`; the
partly-overlapping branch pushes down). -/
def queryAux (x y : Nat) : Nat → Nat → Nat → Nat → St → Int × St
  | 0, _, _, _, s => (nullv, s)
  | fuel+1, node, lo, hi, s =>
    if x > hi ∨ y < lo then (nullv, s)
    else if x ≤ lo ∧ hi ≤ y then
      if s.lazy node = nullv then (s.tree node, s)
      else (s.lazy node, { s with tree := setF s.tree node (s.lazy node) })
    else
      let s1 := pushDown node s
      let r1 := queryAux x y fuel (2*node+1) lo ((lo+hi)/2) s1
      let r2 := queryAux x y fuel (2*node+2) ((lo+hi)/2+1) hi r1.2
      (merge r1.1 r2.1, r2.2)

/-- `internal_update(node, lo, hi)` with the update bounds `x`, `y` and the
value `val = v` passed explicitly. -/
def updateAux (x y : Nat) (v : Int) : Nat → Nat → Nat → Nat → St → St
  | 0, _, _, _, s => s
  | fuel+1, node, lo, hi, s =>
    if x > hi ∨ y < lo then s
    else if lo = hi then { s with tree := setF s.tree node v }
    else if x ≤ lo ∧ hi ≤ y then
      { s with tree := setF s.tree node (merge (s.lazy node) v),
               lazy := setF s.lazy node (merge (s.lazy node) v) }
    else
      let s1 := pushDown node s
      let s2 := updateAux x y v fuel (2*node+1) lo ((lo+hi)/2) s1
      let s3 := updateAux x y v fuel (2*node+2) ((lo+hi)/2+1) hi s2
      { s3 with tree := setF s3.tree node
                          (merge (s3.tree (2*node+1)) (s3.tree (2*node+2))) }

/-- `build(node, lo, hi)` seeding leaves from the initial array `a`.  The
internal-node step is embedded exactly as written in the source
(line 78): `tree[node] = merge(tree[node*2], tree[node*2 + 1])` — note the
indices `2*node` and `2*node+1`, not the children `2*node+1`/`2*node+2`
that the recursion itself descends into. -/
def build (a : Nat → Int) : Nat → Nat → Nat → Nat → St → St
  | 0, _, _, _, s => s
  | fuel+1, node, lo, hi, s =>
    if lo = hi then { s with tree := setF s.tree node (a lo) }
    else
      let s1 := build a fuel (2*node+1) lo ((lo+hi)/2) s
      let s2 := build a fuel (2*node+2) ((lo+hi)/2+1) hi s1
      { s2 with tree := setF s2.tree node
                          (merge (s2.tree (2*node)) (s2.tree (2*node+1))) }

/-- The state right after the constructor's allocations and its
initialization loop `for (i = 0; i < (len << 2); i++) lazy[i] = nullv();`.
`t0` and `l0` are the indeterminate contents of the two fresh buffers. -/
def mkState (N : Nat) (t0 l0 : Nat → Int) : St :=
  { len := N, tree := t0, lazy := fun i => if i < 4*N then nullv else l0 i }

/-- `segment_tree(N, array)` with a non-null `array`: initialize the lazy
buffer and run `build(0, 0, len - 1)`. -/
def construct (N : Nat) (a : Nat → Int) (t0 l0 : Nat → Int) : St :=
  build a N 0 0 (N - 1) (mkState N t0 l0)

/-- Public `query(lo, hi)`: `x = lo; y = hi; internal_query(0, 0, len-1)`. -/
def query (lo hi : Nat) (s : St) : Int × St :=
  queryAux lo hi s.len 0 0 (s.len - 1) s

/-- Public range `update(lo, hi, v)` (the point overload `update(idx, v)`
is the special case `lo = hi = idx`). -/
def update (lo hi : Nat) (v : Int) (s : St) : St :=
  updateAux lo hi v s.len 0 0 (s.len - 1) s

/-- `at(idx) { return query(idx, idx); }` (named `atIdx` since `at` is a
reserved word in Lean). -/
def atIdx (idx : Nat) (s : St) : Int × St :=
  query idx idx s

/-- The buffer indices read or written by `internal_query(node, lo, hi)`:
nothing on a miss; `node` on full overlap; on a partly overlapping range
`node` (lazy test and possible clear), both children (possible push-down
targets) and whatever the two recursive calls touch.  The branch structure
depends only on the indices, so this is a state-independent upper bound on
the accesses of `queryAux`. -/
def queryTouched (x y : Nat) : Nat → Nat → Nat → Nat → List Nat
  | 0, _, _, _ => []
  | fuel+1, node, lo, hi =>
    if x > hi ∨ y < lo then []
    else if x ≤ lo ∧ hi ≤ y then [node]
    else node :: (2*node+1) :: (2*node+2) ::
      (queryTouched x y fuel (2*node+1) lo ((lo+hi)/2) ++
       queryTouched x y fuel (2*node+2) ((lo+hi)/2+1) hi)

/-- The buffer indices read or written by `internal_update(node, lo, hi)`. -/
def updateTouched (x y : Nat) : Nat → Nat → Nat → Nat → List Nat
  | 0, _, _, _ => []
  | fuel+1, node, lo, hi =>
    if x > hi ∨ y < lo then []
    else if lo = hi then [node]
    else if x ≤ lo ∧ hi ≤ y then [node]
    else node :: (2*node+1) :: (2*node+2) ::
      (updateTouched x y fuel (2*node+1) lo ((lo+hi)/2) ++
       updateTouched x y fuel (2*node+2) ((lo+hi)/2+1) hi)

/-- The buffer indices read or written by `build(node, lo, hi)`: a leaf
writes `tree[node]`; an internal node recurses into both children and then
reads `tree[2*node]`, `tree[2*node+1]` and writes `tree[node]`. -/
def buildTouched : Nat → Nat → Nat → Nat → List Nat
  | 0, _, _, _ => []
  | fuel+1, node, lo, hi =>
    if lo = hi then [node]
    else node :: (2*node) :: (2*node+1) ::
      (buildTouched fuel (2*node+1) lo ((lo+hi)/2) ++
       buildTouched fuel (2*node+2) ((lo+hi)/2+1) hi)

/-- `i` lies in the subtree rooted at `r` of the implicit binary tree with
children `2r+1`, `2r+2` (equivalently: repeatedly taking the parent
`(i-1)/2` from `i` reaches `r`). -/
def isDesc (r : Nat) : Nat → Bool
  | i => if i = r then true else if i = 0 then false else isDesc r ((i-1)/2)
decreasing_by simp_wf; omega

/-- All-zero garbage used to instantiate the indeterminate buffer contents
in concrete runs. -/
def zeros : Nat → Int := fun _ => 0

/-- The two-element array {3, 5}. -/
def arrA : Nat → Int := fun i => if i = 0 then 3 else if i = 1 then 5 else 0

/-- The constant array {10}. -/
def arrB : Nat → Int := fun _ => 10

/-- The all-zero array. -/
def arrZ : Nat → Int := fun _ => 0

/-- The node index of the leaf owning array position `i` in the subtree
rooted at `node` over [lo, hi] (following the recursion's splitting). -/
def leafIdx (i : Nat) : Nat → Nat → Nat → Nat → Nat
  | 0, node, _, _ => node
  | fuel+1, node, lo, hi =>
    if lo = hi then node
    else if i ≤ (lo+hi)/2 then leafIdx i fuel (2*node+1) lo ((lo+hi)/2)
    else leafIdx i fuel (2*node+2) ((lo+hi)/2+1) hi

/-- A concrete two-element state with a pending value 5 on every node. -/
def stEx : St := { len := 2, tree := zeros, lazy := fun _ => 5 }

/-- C1: the claim fails on the code.  Building from A = {3, 5} (N = 2, with
all-zero contents in the fresh buffers), `query(0, 1)` returns 3, not the
merge-fold `merge(3, 5) = 5` of the array: the internal-node step of
`build` (line 78) combines `tree[2*node]` and `tree[2*node+1]` instead of
the two children `tree[2*node+1]` and `tree[2*node+2]`, so the root gets
`merge(tree[0], tree[1]) = merge(garbage, A[0])` and never sees A[1]. -/
theorem c1_full_range_query_fails_eval :
    (query 0 1 (construct 2 arrA zeros zeros)).1 = 3 ∧
    merge (arrA 0) (arrA 1) = 5 ∧ (3 : Int) ≠ 5 := by decide

/-- C2: the claim fails on the code.  After building from A = {3, 5}
(N = 2, all-zero fresh-buffer contents), the root holds
`tree[0] = merge(tree[0], tree[1]) = 3`, while the merge of its two
children's stored values is `merge(tree[1], tree[2]) = merge(3, 5) = 5`:
line 78 reads `tree[node*2]` and `tree[node*2+1]`, which for node `r` are
not its children `2r+1` and `2r+2` (for the root it reads `tree[0]`
itself, still uninitialized). -/
theorem c2_build_merges_wrong_indices_eval :
    (construct 2 arrA zeros zeros).tree 0 = 3 ∧
    (construct 2 arrA zeros zeros).tree 1 = 3 ∧
    (construct 2 arrA zeros zeros).tree 2 = 5 ∧
    merge ((construct 2 arrA zeros zeros).tree 1)
          ((construct 2 arrA zeros zeros).tree 2) = 5 ∧ (3 : Int) ≠ 5 := by
  decide

/-- C4: the claim fails on the code.  With N = 1 and A = {10}, right after
construction `at(0) = 10`; after `update(0, 0, 5)` the claim demands
`at(0) = max(5, 10) = 10`, but `internal_update` hits its leaf branch
(line 100), which stores `v` by plain assignment (`tree[node] = val`), so
`at(0)` returns 5 — the observable value decreased. -/
theorem c4_update_is_not_chmax_eval :
    (atIdx 0 (construct 1 arrB zeros zeros)).1 = 10 ∧
    (atIdx 0 (update 0 0 5 (construct 1 arrB zeros zeros))).1 = 5 ∧
    merge 5 10 = 10 ∧ (5 : Int) ≠ 10 := by decide

/-- C7: the claim fails on the code.  N = 2, A = {0, 0}: after
`update(0, 1, 2)` (which leaves lazy[0] = 2 pending at the root) a second
call `update(0, 0, 10)` pushes the pending 2 onto leaf node 1 and then
assigns `tree[1] = 10` without clearing or folding that stale pending
value; the subsequent `query(0, 0)` (a sub-range of the updated range
[0, 0]) sees `lazy[1] = 2 ≠ nullv` and returns 2, which is less than the
updated value 10. -/
theorem c7_query_below_updated_value_eval :
    (query 0 0 (update 0 0 10 (update 0 1 2 (construct 2 arrZ zeros
      zeros)))).1 = 2 ∧ ¬ (10 : Int) ≤ 2 := by decide

/-- C5: counterexample to the claim as stated.  N = 3, A = {0, 0, 0}:
`update(0, 1, 10)` leaves node 1 (range [0, 1]) with pending value 10;
`update(0, 2, 5)` leaves the root with pending value 5; the partly
overlapping `query(2, 2)` then pushes the root's pending value down.  The
claim says node 1's new pending value is the merge of its previous pending
value with the parent's, `merge(10, 5) = 10`; the code instead assigns the
parent's value, leaving `lazy[1] = 5`. -/
theorem c5_push_down_overwrites_counterexample :
    ((update 0 2 5 (update 0 1 10 (construct 3 arrZ zeros zeros)))).lazy 1
      = 10 ∧
    ((query 2 2 (update 0 2 5 (update 0 1 10 (construct 3 arrZ zeros
      zeros)))).2).lazy 1 = 5 ∧
    merge 10 5 = 10 ∧ (5 : Int) ≠ 10 := by decide

lemma isDesc_self (r : Nat) : isDesc r r = true := by
  rw [isDesc]; simp

lemma isDesc_step (r i : Nat) (h0 : i ≠ 0) (h : isDesc r ((i-1)/2) = true) :
    isDesc r i = true := by
  by_cases hir : i = r
  · rw [isDesc, if_pos hir]
  · rw [isDesc, if_neg hir, if_neg h0]; exact h

lemma isDesc_le (r : Nat) : ∀ i, isDesc r i = true → r ≤ i := by
  intro i
  induction i using Nat.strong_induction_on with
  | _ i ih =>
    by_cases hir : i = r
    · intro _; omega
    · by_cases h0 : i = 0
      · rw [isDesc, if_neg hir, if_pos h0]; intro h; exact absurd h (by simp)
      · rw [isDesc, if_neg hir, if_neg h0]
        intro h
        have := ih ((i-1)/2) (by omega) h
        omega

lemma isDesc_trans (a b : Nat) : ∀ c, isDesc a b = true → isDesc b c = true →
    isDesc a c = true := by
  intro c
  induction c using Nat.strong_induction_on with
  | _ c ih =>
    intro h1 h2
    by_cases hcb : c = b
    · rw [hcb]; exact h1
    · by_cases h0 : c = 0
      · rw [isDesc, if_neg hcb, if_pos h0] at h2; exact absurd h2 (by simp)
      · rw [isDesc, if_neg hcb, if_neg h0] at h2
        exact isDesc_step a c h0 (ih ((c-1)/2) (by omega) h1 h2)

lemma isDesc_linear : ∀ c a b, isDesc a c = true → isDesc b c = true →
    isDesc a b = true ∨ isDesc b a = true := by
  intro c
  induction c using Nat.strong_induction_on with
  | _ c ih =>
    intro a b h1 h2
    by_cases hca : c = a
    · right; rw [← hca]; exact h2
    · by_cases h0 : c = 0
      · rw [isDesc, if_neg hca, if_pos h0] at h1; exact absurd h1 (by simp)
      · rw [isDesc, if_neg hca, if_neg h0] at h1
        by_cases hcb : c = b
        · left; rw [← hcb]; exact isDesc_step a c h0 h1
        · rw [isDesc, if_neg hcb, if_neg h0] at h2
          exact ih ((c-1)/2) (by omega) a b h1 h2

lemma isDesc_left (r : Nat) : isDesc r (2*r+1) = true := by
  have h : (2*r+1-1)/2 = r := by omega
  exact isDesc_step r (2*r+1) (by omega) (by rw [h]; exact isDesc_self r)

lemma isDesc_right (r : Nat) : isDesc r (2*r+2) = true := by
  have h : (2*r+2-1)/2 = r := by omega
  exact isDesc_step r (2*r+2) (by omega) (by rw [h]; exact isDesc_self r)

lemma isDesc_of_left (node j : Nat) (h : isDesc (2*node+1) j = true) :
    isDesc node j = true :=
  isDesc_trans node (2*node+1) j (isDesc_left node) h

lemma isDesc_of_right (node j : Nat) (h : isDesc (2*node+2) j = true) :
    isDesc node j = true :=
  isDesc_trans node (2*node+2) j (isDesc_right node) h

lemma isDesc_false_left (node j : Nat) (h : isDesc node j = false) :
    isDesc (2*node+1) j = false := by
  cases hh : isDesc (2*node+1) j
  · rfl
  · rw [isDesc_of_left node j hh] at h; exact absurd h (by simp)

lemma isDesc_false_right (node j : Nat) (h : isDesc node j = false) :
    isDesc (2*node+2) j = false := by
  cases hh : isDesc (2*node+2) j
  · rfl
  · rw [isDesc_of_right node j hh] at h; exact absurd h (by simp)

lemma isDesc_child_self_left (r : Nat) : isDesc (2*r+1) r = false := by
  cases hh : isDesc (2*r+1) r
  · rfl
  · exact absurd (isDesc_le _ _ hh) (by omega)

lemma isDesc_child_self_right (r : Nat) : isDesc (2*r+2) r = false := by
  cases hh : isDesc (2*r+2) r
  · rfl
  · exact absurd (isDesc_le _ _ hh) (by omega)

lemma isDesc_sibling_lr (r : Nat) : isDesc (2*r+1) (2*r+2) = false := by
  have h : (2*r+2-1)/2 = r := by omega
  rw [isDesc, if_neg (by omega : ¬(2*r+2 = 2*r+1)),
      if_neg (by omega : ¬(2*r+2 = 0)), h]
  exact isDesc_child_self_left r

lemma isDesc_sibling_rl (r : Nat) : isDesc (2*r+2) (2*r+1) = false := by
  have h : (2*r+1-1)/2 = r := by omega
  rw [isDesc, if_neg (by omega : ¬(2*r+1 = 2*r+2)),
      if_neg (by omega : ¬(2*r+1 = 0)), h]
  exact isDesc_child_self_right r

lemma isDesc_siblings (r j : Nat) (h1 : isDesc (2*r+1) j = true)
    (h2 : isDesc (2*r+2) j = true) : False := by
  rcases isDesc_linear j (2*r+1) (2*r+2) h1 h2 with h | h
  · rw [isDesc_sibling_lr r] at h; exact absurd h (by simp)
  · rw [isDesc_sibling_rl r] at h; exact absurd h (by simp)

lemma isDesc_ne_node_left (node j : Nat) (h : isDesc (2*node+1) j = true) :
    j ≠ node := by
  intro hj; rw [hj] at h
  rw [isDesc_child_self_left node] at h; exact absurd h (by simp)

lemma isDesc_ne_node_right (node j : Nat) (h : isDesc (2*node+2) j = true) :
    j ≠ node := by
  intro hj; rw [hj] at h
  rw [isDesc_child_self_right node] at h; exact absurd h (by simp)

lemma pushDown_len (node : Nat) (s : St) : (pushDown node s).len = s.len := by
  unfold pushDown; split <;> rfl

lemma pushDown_tree (node : Nat) (s : St) : (pushDown node s).tree = s.tree := by
  unfold pushDown; split <;> rfl

lemma pushDown_lazy_out (node : Nat) (s : St) (j : Nat) (h1 : j ≠ node)
    (h2 : j ≠ 2*node+1) (h3 : j ≠ 2*node+2) :
    (pushDown node s).lazy j = s.lazy j := by
  unfold pushDown
  split
  · rfl
  · simp only [setF, if_neg h1, if_neg h3, if_neg h2]

lemma pushDown_lazy_node (node : Nat) (s : St) :
    (pushDown node s).lazy node = nullv := by
  unfold pushDown
  split
  · assumption
  · simp [setF]

lemma queryAux_len (x y : Nat) : ∀ fuel node lo hi s,
    ((queryAux x y fuel node lo hi s).2).len = s.len := by
  intro fuel
  induction fuel with
  | zero => intro node lo hi s; rfl
  | succ n ih =>
    intro node lo hi s
    simp only [queryAux]
    split
    · rfl
    · split
      · split <;> rfl
      · rw [ih, ih, pushDown_len]

lemma updateAux_len (x y : Nat) (v : Int) : ∀ fuel node lo hi s,
    ((updateAux x y v fuel node lo hi s)).len = s.len := by
  intro fuel
  induction fuel with
  | zero => intro node lo hi s; rfl
  | succ n ih =>
    intro node lo hi s
    simp only [updateAux]
    split
    · rfl
    · split
      · rfl
      · split
        · rfl
        · show (updateAux x y v n _ _ _ (updateAux x y v n _ _ _
            (pushDown node s))).len = s.len
          rw [ih, ih, pushDown_len]

lemma build_len (a : Nat → Int) : ∀ fuel node lo hi s,
    ((build a fuel node lo hi s)).len = s.len := by
  intro fuel
  induction fuel with
  | zero => intro node lo hi s; rfl
  | succ n ih =>
    intro node lo hi s
    simp only [build]
    split
    · rfl
    · show (build a n _ _ _ (build a n _ _ _ s)).len = s.len
      rw [ih, ih]

lemma build_lazy (a : Nat → Int) : ∀ fuel node lo hi s,
    ((build a fuel node lo hi s)).lazy = s.lazy := by
  intro fuel
  induction fuel with
  | zero => intro node lo hi s; rfl
  | succ n ih =>
    intro node lo hi s
    simp only [build]
    split
    · rfl
    · show (build a n _ _ _ (build a n _ _ _ s)).lazy = s.lazy
      rw [ih, ih]

lemma isDesc_false_ne (node j : Nat) (h : isDesc node j = false) :
    j ≠ node ∧ j ≠ 2*node+1 ∧ j ≠ 2*node+2 := by
  refine ⟨?_, ?_, ?_⟩
  · intro hj; rw [hj, isDesc_self] at h; exact absurd h (by simp)
  · intro hj; rw [hj, isDesc_left] at h; exact absurd h (by simp)
  · intro hj; rw [hj, isDesc_right] at h; exact absurd h (by simp)

/-- `internal_query` writes nothing outside the subtree of the node it is
called on. -/
lemma queryAux_frame (x y : Nat) : ∀ fuel node lo hi s j,
    isDesc node j = false →
    (queryAux x y fuel node lo hi s).2.tree j = s.tree j ∧
    (queryAux x y fuel node lo hi s).2.lazy j = s.lazy j := by
  intro fuel
  induction fuel with
  | zero => intro node lo hi s j h; exact ⟨rfl, rfl⟩
  | succ n ih =>
    intro node lo hi s j h
    obtain ⟨hjn, hj1, hj2⟩ := isDesc_false_ne node j h
    simp only [queryAux]
    split
    · exact ⟨rfl, rfl⟩
    · split
      · split
        · exact ⟨rfl, rfl⟩
        · exact ⟨by simp only [setF, if_neg hjn], rfl⟩
      · obtain ⟨ht1, hl1⟩ := ih (2*node+1) lo ((lo+hi)/2) (pushDown node s) j
          (isDesc_false_left node j h)
        obtain ⟨ht2, hl2⟩ := ih (2*node+2) ((lo+hi)/2+1) hi _ j
          (isDesc_false_right node j h)
        constructor
        · rw [ht2, ht1, pushDown_tree]
        · rw [hl2, hl1, pushDown_lazy_out node s j hjn hj1 hj2]

/-- `internal_update` writes nothing outside the subtree of the node it is
called on. -/
lemma updateAux_frame (x y : Nat) (v : Int) : ∀ fuel node lo hi s j,
    isDesc node j = false →
    (updateAux x y v fuel node lo hi s).tree j = s.tree j ∧
    (updateAux x y v fuel node lo hi s).lazy j = s.lazy j := by
  intro fuel
  induction fuel with
  | zero => intro node lo hi s j h; exact ⟨rfl, rfl⟩
  | succ n ih =>
    intro node lo hi s j h
    obtain ⟨hjn, hj1, hj2⟩ := isDesc_false_ne node j h
    simp only [updateAux]
    split
    · exact ⟨rfl, rfl⟩
    · split
      · exact ⟨by simp only [setF, if_neg hjn], rfl⟩
      · split
        · exact ⟨by simp only [setF, if_neg hjn],
                 by simp only [setF, if_neg hjn]⟩
        · obtain ⟨ht1, hl1⟩ := ih (2*node+1) lo ((lo+hi)/2) (pushDown node s) j
            (isDesc_false_left node j h)
          obtain ⟨ht2, hl2⟩ := ih (2*node+2) ((lo+hi)/2+1) hi _ j
            (isDesc_false_right node j h)
          constructor
          · show setF (updateAux x y v n _ _ _ (updateAux x y v n _ _ _
              (pushDown node s))).tree node _ j = s.tree j
            rw [setF, if_neg hjn, ht2, ht1, pushDown_tree]
          · show (updateAux x y v n _ _ _ (updateAux x y v n _ _ _
              (pushDown node s))).lazy j = s.lazy j
            rw [hl2, hl1, pushDown_lazy_out node s j hjn hj1 hj2]

/-- `build` writes nothing outside the subtree of the node it is called
on. -/
lemma build_frame (a : Nat → Int) : ∀ fuel node lo hi s j,
    isDesc node j = false →
    (build a fuel node lo hi s).tree j = s.tree j := by
  intro fuel
  induction fuel with
  | zero => intro node lo hi s j h; rfl
  | succ n ih =>
    intro node lo hi s j h
    obtain ⟨hjn, hj1, hj2⟩ := isDesc_false_ne node j h
    simp only [build]
    split
    · simp only [setF, if_neg hjn]
    · show setF (build a n _ _ _ (build a n _ _ _ s)).tree node _ j = s.tree j
      rw [setF, if_neg hjn, ih (2*node+2) ((lo+hi)/2+1) hi _ j
        (isDesc_false_right node j h),
        ih (2*node+1) lo ((lo+hi)/2) s j (isDesc_false_left node j h)]

lemma sibling_false_left (r j : Nat) (h : isDesc (2*r+2) j = true) :
    isDesc (2*r+1) j = false := by
  cases hh : isDesc (2*r+1) j
  · rfl
  · exact (isDesc_siblings r j hh h).elim

lemma sibling_false_right (r j : Nat) (h : isDesc (2*r+1) j = true) :
    isDesc (2*r+2) j = false := by
  cases hh : isDesc (2*r+2) j
  · rfl
  · exact (isDesc_siblings r j h hh).elim

lemma pushDown_agree (node : Nat) (s t : St)
    (h : ∀ j, isDesc node j = true →
      s.tree j = t.tree j ∧ s.lazy j = t.lazy j) :
    ∀ j, isDesc node j = true →
      (pushDown node s).tree j = (pushDown node t).tree j ∧
      (pushDown node s).lazy j = (pushDown node t).lazy j := by
  intro j hj
  have hnode := (h node (isDesc_self node)).2
  unfold pushDown
  by_cases hc : s.lazy node = nullv
  · rw [if_pos hc, if_pos (by rw [← hnode]; exact hc)]
    exact h j hj
  · rw [if_neg hc, if_neg (by rw [← hnode]; exact hc)]
    refine ⟨(h j hj).1, ?_⟩
    simp only [setF]
    split_ifs <;> first | rfl | exact hnode | exact (h j hj).2

/-- The value returned by `internal_query` depends only on the buffer
contents inside the subtree of the node it is called on. -/
lemma queryAux_congr (x y : Nat) : ∀ fuel node lo hi s t,
    (∀ j, isDesc node j = true →
      s.tree j = t.tree j ∧ s.lazy j = t.lazy j) →
    (queryAux x y fuel node lo hi s).1 = (queryAux x y fuel node lo hi t).1 := by
  intro fuel
  induction fuel with
  | zero => intro node lo hi s t h; rfl
  | succ n ih =>
    intro node lo hi s t h
    simp only [queryAux]
    by_cases h1 : x > hi ∨ y < lo
    · rw [if_pos h1, if_pos h1]
    · rw [if_neg h1, if_neg h1]
      by_cases h2 : x ≤ lo ∧ hi ≤ y
      · rw [if_pos h2, if_pos h2]
        have hnode := h node (isDesc_self node)
        by_cases hc : s.lazy node = nullv
        · rw [if_pos hc, if_pos (by rw [← hnode.2]; exact hc)]
          exact hnode.1
        · rw [if_neg hc, if_neg (by rw [← hnode.2]; exact hc)]
          exact hnode.2
      · rw [if_neg h2, if_neg h2]
        have hpush := pushDown_agree node s t h
        have e1 : (queryAux x y n (2*node+1) lo ((lo+hi)/2)
              (pushDown node s)).1 =
            (queryAux x y n (2*node+1) lo ((lo+hi)/2) (pushDown node t)).1 :=
          ih (2*node+1) lo ((lo+hi)/2) _ _
            (fun j hj => hpush j (isDesc_of_left node j hj))
        have hR : ∀ j, isDesc (2*node+2) j = true →
            ((queryAux x y n (2*node+1) lo ((lo+hi)/2)
              (pushDown node s)).2).tree j =
            ((queryAux x y n (2*node+1) lo ((lo+hi)/2)
              (pushDown node t)).2).tree j ∧
            ((queryAux x y n (2*node+1) lo ((lo+hi)/2)
              (pushDown node s)).2).lazy j =
            ((queryAux x y n (2*node+1) lo ((lo+hi)/2)
              (pushDown node t)).2).lazy j := by
          intro j hj
          have hfs := queryAux_frame x y n (2*node+1) lo ((lo+hi)/2)
            (pushDown node s) j (sibling_false_left node j hj)
          have hft := queryAux_frame x y n (2*node+1) lo ((lo+hi)/2)
            (pushDown node t) j (sibling_false_left node j hj)
          rw [hfs.1, hfs.2, hft.1, hft.2]
          exact hpush j (isDesc_of_right node j hj)
        have e2 := ih (2*node+2) ((lo+hi)/2+1) hi _ _ hR
        show merge _ _ = merge _ _
        rw [e1, e2]

lemma merge_nullv_nullv : merge nullv nullv = nullv := by decide

/-- With an inverted bound pair (`y < x`) no node can be fully inside the
query interval and every leaf misses, so `internal_query` folds only
`nullv()` values. -/
lemma queryAux_inverted (x y : Nat) (hxy : y < x) : ∀ fuel node lo hi s,
    lo ≤ hi → (queryAux x y fuel node lo hi s).1 = nullv := by
  intro fuel
  induction fuel with
  | zero => intro node lo hi s hlh; rfl
  | succ n ih =>
    intro node lo hi s hlh
    simp only [queryAux]
    by_cases h1 : x > hi ∨ y < lo
    · rw [if_pos h1]
    · rw [if_neg h1]
      have h2 : ¬(x ≤ lo ∧ hi ≤ y) := by omega
      rw [if_neg h2]
      have hlt : lo < hi := by omega
      show merge _ _ = nullv
      rw [ih (2*node+1) lo ((lo+hi)/2) _ (by omega),
          ih (2*node+2) ((lo+hi)/2+1) hi _ (by omega)]
      exact merge_nullv_nullv

/-- C10: for every state and every pair of in-bounds indices with
`lo > hi`, `query(lo, hi)` returns the sentinel `nullv()`: no node range
fits inside the empty interval and every leaf fails the overlap test, so
the recursion only ever folds `nullv()` results.  (Proved for arbitrary
states, hence in particular for every reachable one.) -/
theorem c10_inverted_range_returns_nullv (s : St) (lo hi : Nat)
    (h1 : hi < lo) (h2 : lo < s.len) : (query lo hi s).1 = nullv := by
  unfold query
  exact queryAux_inverted lo hi h1 s.len 0 0 (s.len - 1) s (Nat.zero_le _)

/-- C10 witness: a concrete inverted-range call on a concretely built
two-element tree returns `nullv()`. -/
theorem c10_inverted_range_witness :
    (query 1 0 (construct 2 arrA zeros zeros)).1 = nullv :=
  c10_inverted_range_returns_nullv (construct 2 arrA zeros zeros) 1 0
    (by decide) (by decide)

lemma pushDown_nop (node : Nat) (s : St) (h : s.lazy node = nullv) :
    pushDown node s = s := by
  unfold pushDown; rw [if_pos h]

/-- Re-running `internal_query` with the same bounds on the state produced
by a first run returns the same value as the first run. -/
lemma queryAux_idem (x y : Nat) : ∀ fuel node lo hi s,
    (queryAux x y fuel node lo hi ((queryAux x y fuel node lo hi s).2)).1 =
      (queryAux x y fuel node lo hi s).1 := by
  intro fuel
  induction fuel with
  | zero => intro node lo hi s; rfl
  | succ n ih =>
    intro node lo hi s
    by_cases h1 : x > hi ∨ y < lo
    · simp only [queryAux, if_pos h1]
    · by_cases h2 : x ≤ lo ∧ hi ≤ y
      · by_cases hc : s.lazy node = nullv
        · simp only [queryAux, if_neg h1, if_pos h2, if_pos hc]
        · simp only [queryAux, if_neg h1, if_pos h2, if_neg hc]
      · simp only [queryAux, if_neg h1, if_neg h2]
        have hlz : ((queryAux x y n (2*node+2) ((lo+hi)/2+1) hi
            ((queryAux x y n (2*node+1) lo ((lo+hi)/2)
              (pushDown node s)).2)).2).lazy node = nullv := by
          rw [(queryAux_frame x y n (2*node+2) ((lo+hi)/2+1) hi _ node
                (isDesc_child_self_right node)).2,
              (queryAux_frame x y n (2*node+1) lo ((lo+hi)/2) _ node
                (isDesc_child_self_left node)).2,
              pushDown_lazy_node]
        rw [pushDown_nop node _ hlz]
        have e1 : (queryAux x y n (2*node+1) lo ((lo+hi)/2)
              ((queryAux x y n (2*node+2) ((lo+hi)/2+1) hi
                ((queryAux x y n (2*node+1) lo ((lo+hi)/2)
                  (pushDown node s)).2)).2)).1 =
            (queryAux x y n (2*node+1) lo ((lo+hi)/2)
              ((queryAux x y n (2*node+1) lo ((lo+hi)/2)
                (pushDown node s)).2)).1 :=
          queryAux_congr x y n (2*node+1) lo ((lo+hi)/2) _ _ (fun j hj => by
            have f := queryAux_frame x y n (2*node+2) ((lo+hi)/2+1) hi
              ((queryAux x y n (2*node+1) lo ((lo+hi)/2)
                (pushDown node s)).2) j (sibling_false_right node j hj)
            exact ⟨f.1, f.2⟩)
        have e2 : (queryAux x y n (2*node+1) lo ((lo+hi)/2)
              ((queryAux x y n (2*node+1) lo ((lo+hi)/2)
                (pushDown node s)).2)).1 =
            (queryAux x y n (2*node+1) lo ((lo+hi)/2) (pushDown node s)).1 :=
          ih (2*node+1) lo ((lo+hi)/2) (pushDown node s)
        have e3 : (queryAux x y n (2*node+2) ((lo+hi)/2+1) hi
              ((queryAux x y n (2*node+1) lo ((lo+hi)/2)
                ((queryAux x y n (2*node+2) ((lo+hi)/2+1) hi
                  ((queryAux x y n (2*node+1) lo ((lo+hi)/2)
                    (pushDown node s)).2)).2)).2)).1 =
            (queryAux x y n (2*node+2) ((lo+hi)/2+1) hi
              ((queryAux x y n (2*node+2) ((lo+hi)/2+1) hi
                ((queryAux x y n (2*node+1) lo ((lo+hi)/2)
                  (pushDown node s)).2)).2)).1 :=
          queryAux_congr x y n (2*node+2) ((lo+hi)/2+1) hi _ _ (fun j hj => by
            have f := queryAux_frame x y n (2*node+1) lo ((lo+hi)/2)
              ((queryAux x y n (2*node+2) ((lo+hi)/2+1) hi
                ((queryAux x y n (2*node+1) lo ((lo+hi)/2)
                  (pushDown node s)).2)).2) j (sibling_false_left node j hj)
            exact ⟨f.1, f.2⟩)
        have e4 : (queryAux x y n (2*node+2) ((lo+hi)/2+1) hi
              ((queryAux x y n (2*node+2) ((lo+hi)/2+1) hi
                ((queryAux x y n (2*node+1) lo ((lo+hi)/2)
                  (pushDown node s)).2)).2)).1 =
            (queryAux x y n (2*node+2) ((lo+hi)/2+1) hi
              ((queryAux x y n (2*node+1) lo ((lo+hi)/2)
                (pushDown node s)).2)).1 :=
          ih (2*node+2) ((lo+hi)/2+1) hi _
        show merge _ _ = merge _ _
        rw [e1, e2, e3, e4]

/-- C8: idempotent read.  For every state (in particular every reachable
one) and any bounds, calling `query(lo, hi)` twice in a row with no
intervening update returns the same value both times, even though the
first call may write back pending values in the full-overlap branch and
push pending values down in the partly-overlapping branch. -/
theorem c8_idempotent_read (s : St) (lo hi : Nat) :
    (query lo hi ((query lo hi s).2)).1 = (query lo hi s).1 := by
  unfold query
  rw [queryAux_len lo hi s.len 0 0 (s.len - 1) s]
  exact queryAux_idem lo hi s.len 0 0 (s.len - 1) s

/-- In the partly-overlapping case, the node's pending value is cleared
(by the push-down) and never re-set by `internal_update`. -/
lemma updateAux_else_lazy_node (x y : Nat) (v : Int) (n node lo hi : Nat)
    (s : St) (hu1 : ¬(x > hi ∨ y < lo)) (hl : ¬ lo = hi)
    (hu2 : ¬(x ≤ lo ∧ hi ≤ y)) :
    (updateAux x y v (n+1) node lo hi s).lazy node = nullv := by
  simp only [updateAux, if_neg hu1, if_neg hl, if_neg hu2]
  show (updateAux x y v n (2*node+2) ((lo+hi)/2+1) hi
    (updateAux x y v n (2*node+1) lo ((lo+hi)/2)
      (pushDown node s))).lazy node = nullv
  rw [(updateAux_frame x y v n (2*node+2) ((lo+hi)/2+1) hi _ node
        (isDesc_child_self_right node)).2,
      (updateAux_frame x y v n (2*node+1) lo ((lo+hi)/2) _ node
        (isDesc_child_self_left node)).2,
      pushDown_lazy_node]

/-- In the partly-overlapping case, inside the left child's subtree the
state after `internal_update` agrees with the state right after the left
recursive call. -/
lemma updateAux_else_left (x y : Nat) (v : Int) (n node lo hi : Nat)
    (s : St) (hu1 : ¬(x > hi ∨ y < lo)) (hl : ¬ lo = hi)
    (hu2 : ¬(x ≤ lo ∧ hi ≤ y)) :
    ∀ j, isDesc (2*node+1) j = true →
      (updateAux x y v (n+1) node lo hi s).tree j =
        (updateAux x y v n (2*node+1) lo ((lo+hi)/2)
          (pushDown node s)).tree j ∧
      (updateAux x y v (n+1) node lo hi s).lazy j =
        (updateAux x y v n (2*node+1) lo ((lo+hi)/2)
          (pushDown node s)).lazy j := by
  intro j hj
  have hne := isDesc_ne_node_left node j hj
  have hfr := updateAux_frame x y v n (2*node+2) ((lo+hi)/2+1) hi
    (updateAux x y v n (2*node+1) lo ((lo+hi)/2) (pushDown node s)) j
    (sibling_false_right node j hj)
  simp only [updateAux, if_neg hu1, if_neg hl, if_neg hu2]
  constructor
  · show setF (updateAux x y v n (2*node+2) ((lo+hi)/2+1) hi
      (updateAux x y v n (2*node+1) lo ((lo+hi)/2)
        (pushDown node s))).tree node _ j = _
    rw [setF, if_neg hne]
    exact hfr.1
  · exact hfr.2

/-- In the partly-overlapping case, inside the right child's subtree the
state after `internal_update` agrees with the state right after the right
recursive call. -/
lemma updateAux_else_right (x y : Nat) (v : Int) (n node lo hi : Nat)
    (s : St) (hu1 : ¬(x > hi ∨ y < lo)) (hl : ¬ lo = hi)
    (hu2 : ¬(x ≤ lo ∧ hi ≤ y)) :
    ∀ j, isDesc (2*node+2) j = true →
      (updateAux x y v (n+1) node lo hi s).tree j =
        (updateAux x y v n (2*node+2) ((lo+hi)/2+1) hi
          (updateAux x y v n (2*node+1) lo ((lo+hi)/2)
            (pushDown node s))).tree j ∧
      (updateAux x y v (n+1) node lo hi s).lazy j =
        (updateAux x y v n (2*node+2) ((lo+hi)/2+1) hi
          (updateAux x y v n (2*node+1) lo ((lo+hi)/2)
            (pushDown node s))).lazy j := by
  intro j hj
  have hne := isDesc_ne_node_right node j hj
  simp only [updateAux, if_neg hu1, if_neg hl, if_neg hu2]
  constructor
  · show setF (updateAux x y v n (2*node+2) ((lo+hi)/2+1) hi
      (updateAux x y v n (2*node+1) lo ((lo+hi)/2)
        (pushDown node s))).tree node _ j = _
    rw [setF, if_neg hne]
  · trivial

/-- Core of the locality argument: running `internal_update` and then
`internal_query` over the same node range returns the same value as
running `internal_query` alone, whenever the query interval [a, b] and
the update interval [x, y] are disjoint.  Holds for every state. -/
lemma queryAux_after_update_disjoint (a b x y : Nat) (v : Int)
    (hab : a ≤ b) (hxy : x ≤ y) (hdisj : b < x ∨ y < a) :
    ∀ fuel node lo hi s, lo ≤ hi →
    (queryAux a b fuel node lo hi (updateAux x y v fuel node lo hi s)).1 =
      (queryAux a b fuel node lo hi s).1 := by
  intro fuel
  induction fuel with
  | zero => intro node lo hi s hlh; rfl
  | succ n ih =>
    intro node lo hi s hlh
    by_cases hu1 : x > hi ∨ y < lo
    · simp only [updateAux, if_pos hu1]
    · by_cases huleaf : lo = hi
      · have hqmiss : a > hi ∨ b < lo := by omega
        simp only [updateAux, if_neg hu1, if_pos huleaf, queryAux,
                   if_pos hqmiss]
      · by_cases hu2 : x ≤ lo ∧ hi ≤ y
        · have hqmiss : a > hi ∨ b < lo := by omega
          simp only [updateAux, if_neg hu1, if_neg huleaf, if_pos hu2,
                     queryAux, if_pos hqmiss]
        · have hlt : lo < hi := by omega
          by_cases hq1 : a > hi ∨ b < lo
          · simp only [queryAux, if_pos hq1]
          · have hq2 : ¬(a ≤ lo ∧ hi ≤ b) := by omega
            simp only [queryAux, if_neg hq1, if_neg hq2]
            rw [pushDown_nop node _
              (updateAux_else_lazy_node x y v n node lo hi s hu1 huleaf hu2)]
            have e1 : (queryAux a b n (2*node+1) lo ((lo+hi)/2)
                  (updateAux x y v (n+1) node lo hi s)).1 =
                (queryAux a b n (2*node+1) lo ((lo+hi)/2)
                  (updateAux x y v n (2*node+1) lo ((lo+hi)/2)
                    (pushDown node s))).1 :=
              queryAux_congr a b n (2*node+1) lo ((lo+hi)/2) _ _
                (updateAux_else_left x y v n node lo hi s hu1 huleaf hu2)
            have e2 : (queryAux a b n (2*node+1) lo ((lo+hi)/2)
                  (updateAux x y v n (2*node+1) lo ((lo+hi)/2)
                    (pushDown node s))).1 =
                (queryAux a b n (2*node+1) lo ((lo+hi)/2)
                  (pushDown node s)).1 :=
              ih (2*node+1) lo ((lo+hi)/2) (pushDown node s) (by omega)
            have f1 : (queryAux a b n (2*node+2) ((lo+hi)/2+1) hi
                  ((queryAux a b n (2*node+1) lo ((lo+hi)/2)
                    (updateAux x y v (n+1) node lo hi s)).2)).1 =
                (queryAux a b n (2*node+2) ((lo+hi)/2+1) hi
                  (updateAux x y v (n+1) node lo hi s)).1 :=
              queryAux_congr a b n (2*node+2) ((lo+hi)/2+1) hi _ _
                (fun j hj => queryAux_frame a b n (2*node+1) lo ((lo+hi)/2)
                  (updateAux x y v (n+1) node lo hi s) j
                  (sibling_false_left node j hj))
            have f2 : (queryAux a b n (2*node+2) ((lo+hi)/2+1) hi
                  (updateAux x y v (n+1) node lo hi s)).1 =
                (queryAux a b n (2*node+2) ((lo+hi)/2+1) hi
                  (updateAux x y v n (2*node+2) ((lo+hi)/2+1) hi
                    (updateAux x y v n (2*node+1) lo ((lo+hi)/2)
                      (pushDown node s)))).1 :=
              queryAux_congr a b n (2*node+2) ((lo+hi)/2+1) hi _ _
                (updateAux_else_right x y v n node lo hi s hu1 huleaf hu2)
            have f3 : (queryAux a b n (2*node+2) ((lo+hi)/2+1) hi
                  (updateAux x y v n (2*node+2) ((lo+hi)/2+1) hi
                    (updateAux x y v n (2*node+1) lo ((lo+hi)/2)
                      (pushDown node s)))).1 =
                (queryAux a b n (2*node+2) ((lo+hi)/2+1) hi
                  (updateAux x y v n (2*node+1) lo ((lo+hi)/2)
                    (pushDown node s))).1 :=
              ih (2*node+2) ((lo+hi)/2+1) hi _ (by omega)
            have f4 : (queryAux a b n (2*node+2) ((lo+hi)/2+1) hi
                  (updateAux x y v n (2*node+1) lo ((lo+hi)/2)
                    (pushDown node s))).1 =
                (queryAux a b n (2*node+2) ((lo+hi)/2+1) hi
                  (pushDown node s)).1 :=
              queryAux_congr a b n (2*node+2) ((lo+hi)/2+1) hi _ _
                (fun j hj => updateAux_frame x y v n (2*node+1) lo ((lo+hi)/2)
                  (pushDown node s) j (sibling_false_left node j hj))
            have f5 : (queryAux a b n (2*node+2) ((lo+hi)/2+1) hi
                  ((queryAux a b n (2*node+1) lo ((lo+hi)/2)
                    (pushDown node s)).2)).1 =
                (queryAux a b n (2*node+2) ((lo+hi)/2+1) hi
                  (pushDown node s)).1 :=
              queryAux_congr a b n (2*node+2) ((lo+hi)/2+1) hi _ _
                (fun j hj => queryAux_frame a b n (2*node+1) lo ((lo+hi)/2)
                  (pushDown node s) j (sibling_false_left node j hj))
            show merge _ _ = merge _ _
            rw [e1, e2, f1, f2, f3, f4, f5]

/-- C6: locality of updates.  For every state (hence every reachable one),
every in-bounds update range [lo, hi] with value v, and every in-bounds
query range [a, b] disjoint from [lo, hi], the value `query(a, b)` returns
after `update(lo, hi, v)` equals the value it would have returned
immediately before the update. -/
theorem c6_update_locality (s : St) (lo hi a b : Nat) (v : Int)
    (h1 : lo ≤ hi) (h2 : hi < s.len) (h3 : a ≤ b) (h4 : b < s.len)
    (h5 : b < lo ∨ hi < a) :
    (query a b (update lo hi v s)).1 = (query a b s).1 := by
  unfold query update
  rw [updateAux_len lo hi v s.len 0 0 (s.len - 1) s]
  exact queryAux_after_update_disjoint a b lo hi v h3 h1 h5 s.len 0 0
    (s.len - 1) s (Nat.zero_le _)

/-- C6 witness: on a concretely built two-element tree, updating index 0
does not change the query of the disjoint index 1. -/
theorem c6_update_locality_witness :
    (query 1 1 (update 0 0 7 (construct 2 arrA zeros zeros))).1 =
      (query 1 1 (construct 2 arrA zeros zeros)).1 :=
  c6_update_locality (construct 2 arrA zeros zeros) 0 0 1 1 7 (by decide)
    (by decide) (by decide) (by decide) (by decide)

/-- Arithmetic of the node-index invariant: a node at depth d satisfies
`node+1 < 2^(d+1)`, `2^d < 2n`, and its range size obeys
`(hi-lo)·2^d < n`; this bounds the node (and, at internal nodes, its
children) below 4n and is inherited by both children at depth d+1. -/
lemma bound_step (d n node lo hi : Nat) (h1 : node+1 < 2^(d+1))
    (h2 : 2^d < 2*n) (h3 : (hi-lo) * 2^d < n) :
    node < 4*n ∧
    (lo < hi →
      2*node+2 < 4*n ∧
      2*node+1+1 < 2^(d+2) ∧ 2*node+2+1 < 2^(d+2) ∧ 2^(d+1) < 2*n ∧
      ((lo+hi)/2 - lo) * 2^(d+1) < n ∧
      (hi - ((lo+hi)/2+1)) * 2^(d+1) < n) := by
  have e1 : 2^(d+1) = 2 * 2^d := by rw [pow_succ]; ring
  have e2 : 2^(d+2) = 4 * 2^d := by rw [pow_succ, pow_succ]; ring
  have hd0 : 0 < 2^d := Nat.pow_pos (by norm_num)
  constructor
  · omega
  · intro hlt
    have hde : 2^d < n := by
      have h4 : 1 * 2^d ≤ (hi - lo) * 2^d := mul_le_mul_right' (by omega) _
      omega
    refine ⟨by omega, by omega, by omega, by omega, ?_, ?_⟩
    · have hm : 2*((lo+hi)/2 - lo) ≤ hi - lo := by omega
      calc ((lo+hi)/2 - lo) * 2^(d+1) = (2*((lo+hi)/2 - lo)) * 2^d := by
            rw [e1]; ring
        _ ≤ (hi - lo) * 2^d := mul_le_mul_right' hm _
        _ < n := h3
    · have hm : 2*(hi - ((lo+hi)/2+1)) ≤ hi - lo := by omega
      calc (hi - ((lo+hi)/2+1)) * 2^(d+1) =
            (2*(hi - ((lo+hi)/2+1))) * 2^d := by rw [e1]; ring
        _ ≤ (hi - lo) * 2^d := mul_le_mul_right' hm _
        _ < n := h3

lemma queryTouched_bound (x y : Nat) : ∀ fuel node lo hi d n,
    node+1 < 2^(d+1) → 2^d < 2*n → (hi-lo) * 2^d < n →
    ∀ i ∈ queryTouched x y fuel node lo hi, i < 4*n := by
  intro fuel
  induction fuel with
  | zero =>
    intro node lo hi d n _ _ _ i hmem
    simp [queryTouched] at hmem
  | succ m ih =>
    intro node lo hi d n h1 h2 h3 i hmem
    obtain ⟨hn4, hrest⟩ := bound_step d n node lo hi h1 h2 h3
    simp only [queryTouched] at hmem
    by_cases c1 : x > hi ∨ y < lo
    · rw [if_pos c1] at hmem; simp at hmem
    · rw [if_neg c1] at hmem
      by_cases c2 : x ≤ lo ∧ hi ≤ y
      · rw [if_pos c2] at hmem
        simp at hmem
        omega
      · rw [if_neg c2] at hmem
        have hlt : lo < hi := by omega
        obtain ⟨hcc, hb1, hb2, hb3, hszL, hszR⟩ := hrest hlt
        simp only [List.mem_cons, List.mem_append] at hmem
        rcases hmem with rfl | rfl | rfl | hL | hR
        · exact hn4
        · omega
        · omega
        · exact ih (2*node+1) lo ((lo+hi)/2) (d+1) n hb1 hb3 hszL i hL
        · exact ih (2*node+2) ((lo+hi)/2+1) hi (d+1) n hb2 hb3 hszR i hR

lemma updateTouched_bound (x y : Nat) : ∀ fuel node lo hi d n,
    node+1 < 2^(d+1) → 2^d < 2*n → (hi-lo) * 2^d < n →
    ∀ i ∈ updateTouched x y fuel node lo hi, i < 4*n := by
  intro fuel
  induction fuel with
  | zero =>
    intro node lo hi d n _ _ _ i hmem
    simp [updateTouched] at hmem
  | succ m ih =>
    intro node lo hi d n h1 h2 h3 i hmem
    obtain ⟨hn4, hrest⟩ := bound_step d n node lo hi h1 h2 h3
    simp only [updateTouched] at hmem
    by_cases c1 : x > hi ∨ y < lo
    · rw [if_pos c1] at hmem; simp at hmem
    · rw [if_neg c1] at hmem
      by_cases cleaf : lo = hi
      · rw [if_pos cleaf] at hmem
        simp at hmem
        omega
      · rw [if_neg cleaf] at hmem
        by_cases c2 : x ≤ lo ∧ hi ≤ y
        · rw [if_pos c2] at hmem
          simp at hmem
          omega
        · rw [if_neg c2] at hmem
          have hlt : lo < hi := by omega
          obtain ⟨hcc, hb1, hb2, hb3, hszL, hszR⟩ := hrest hlt
          simp only [List.mem_cons, List.mem_append] at hmem
          rcases hmem with rfl | rfl | rfl | hL | hR
          · exact hn4
          · omega
          · omega
          · exact ih (2*node+1) lo ((lo+hi)/2) (d+1) n hb1 hb3 hszL i hL
          · exact ih (2*node+2) ((lo+hi)/2+1) hi (d+1) n hb2 hb3 hszR i hR

lemma buildTouched_bound : ∀ fuel node lo hi d n, lo ≤ hi →
    node+1 < 2^(d+1) → 2^d < 2*n → (hi-lo) * 2^d < n →
    ∀ i ∈ buildTouched fuel node lo hi, i < 4*n := by
  intro fuel
  induction fuel with
  | zero =>
    intro node lo hi d n _ _ _ _ i hmem
    simp [buildTouched] at hmem
  | succ m ih =>
    intro node lo hi d n hle h1 h2 h3 i hmem
    obtain ⟨hn4, hrest⟩ := bound_step d n node lo hi h1 h2 h3
    simp only [buildTouched] at hmem
    by_cases cleaf : lo = hi
    · rw [if_pos cleaf] at hmem
      simp at hmem
      omega
    · rw [if_neg cleaf] at hmem
      have hlt : lo < hi := by omega
      obtain ⟨hcc, hb1, hb2, hb3, hszL, hszR⟩ := hrest hlt
      simp only [List.mem_cons, List.mem_append] at hmem
      rcases hmem with rfl | rfl | rfl | hL | hR
      · exact hn4
      · omega
      · omega
      · exact ih (2*node+1) lo ((lo+hi)/2) (d+1) n (by omega) hb1 hb3 hszL i hL
      · exact ih (2*node+2) ((lo+hi)/2+1) hi (d+1) n (by omega) hb2 hb3 hszR
          i hR

/-- C9: buffer-bounds safety.  For a structure of size N > 0, the
constructor's initialization loop writes only below 4N, and every buffer
index read or written by `build`, by an in-bounds `query`/`update`, and by
`at(idx)` (= `query(idx, idx)`) lies in [0, 4N): the 4N allocation always
suffices. -/
theorem c9_buffer_bounds_safety (n x y idx : Nat) (t0 l0 : Nat → Int)
    (hn : 0 < n) (hxy : x ≤ y) (hy : y < n) (hidx : idx < n) :
    (∀ j, 4*n ≤ j → (mkState n t0 l0).lazy j = l0 j) ∧
    (∀ i ∈ buildTouched n 0 0 (n-1), i < 4*n) ∧
    (∀ i ∈ queryTouched x y n 0 0 (n-1), i < 4*n) ∧
    (∀ i ∈ updateTouched x y n 0 0 (n-1), i < 4*n) ∧
    (∀ i ∈ queryTouched idx idx n 0 0 (n-1), i < 4*n) := by
  have hroot1 : 0+1 < 2^(0+1) := by norm_num
  have hroot2 : 2^0 < 2*n := by simp [pow_zero]; omega
  have hroot3 : (n-1-0) * 2^0 < n := by simp [pow_zero]; omega
  refine ⟨?_, ?_, ?_, ?_, ?_⟩
  · intro j hj
    show (if j < 4*n then nullv else l0 j) = l0 j
    rw [if_neg (by omega)]
  · exact buildTouched_bound n 0 0 (n-1) 0 n (by omega) hroot1 hroot2 hroot3
  · exact queryTouched_bound x y n 0 0 (n-1) 0 n hroot1 hroot2 hroot3
  · exact updateTouched_bound x y n 0 0 (n-1) 0 n hroot1 hroot2 hroot3
  · exact queryTouched_bound idx idx n 0 0 (n-1) 0 n hroot1 hroot2 hroot3

/-- C9 witness: the bounds hold concretely for N = 2, query/update bounds
[0, 1] and point index 0. -/
theorem c9_buffer_bounds_safety_witness :
    (∀ j, 4*2 ≤ j → (mkState 2 zeros zeros).lazy j = zeros j) ∧
    (∀ i ∈ buildTouched 2 0 0 (2-1), i < 4*2) ∧
    (∀ i ∈ queryTouched 0 1 2 0 0 (2-1), i < 4*2) ∧
    (∀ i ∈ updateTouched 0 1 2 0 0 (2-1), i < 4*2) ∧
    (∀ i ∈ queryTouched 0 0 2 0 0 (2-1), i < 4*2) :=
  c9_buffer_bounds_safety 2 0 1 0 zeros zeros (by decide) (by decide)
    (by decide) (by decide)

lemma leafIdx_desc (i : Nat) : ∀ fuel node lo hi,
    isDesc node (leafIdx i fuel node lo hi) = true := by
  intro fuel
  induction fuel with
  | zero => intro node lo hi; exact isDesc_self node
  | succ m ih =>
    intro node lo hi
    simp only [leafIdx]
    by_cases hl : lo = hi
    · rw [if_pos hl]; exact isDesc_self node
    · rw [if_neg hl]
      by_cases hs : i ≤ (lo+hi)/2
      · rw [if_pos hs]
        exact isDesc_of_left node _ (ih (2*node+1) lo ((lo+hi)/2))
      · rw [if_neg hs]
        exact isDesc_of_right node _ (ih (2*node+2) ((lo+hi)/2+1) hi)

/-- After `build`, the leaf owning position `i` holds exactly `a i`. -/
lemma build_leaf_value (a : Nat → Int) (i : Nat) : ∀ fuel node lo hi s,
    hi - lo < fuel → lo ≤ i → i ≤ hi →
    (build a fuel node lo hi s).tree (leafIdx i fuel node lo hi) = a i := by
  intro fuel
  induction fuel with
  | zero => intro node lo hi s hf hlo hhi; omega
  | succ m ih =>
    intro node lo hi s hf hlo hhi
    simp only [build, leafIdx]
    by_cases hl : lo = hi
    · rw [if_pos hl, if_pos hl]
      show setF s.tree node (a lo) node = a i
      rw [setF, if_pos rfl]
      have : i = lo := by omega
      rw [this]
    · rw [if_neg hl, if_neg hl]
      have hlt : lo < hi := by omega
      by_cases hs : i ≤ (lo+hi)/2
      · rw [if_pos hs]
        have hdj := leafIdx_desc i m (2*node+1) lo ((lo+hi)/2)
        show setF (build a m (2*node+2) ((lo+hi)/2+1) hi
          (build a m (2*node+1) lo ((lo+hi)/2) s)).tree node _
            (leafIdx i m (2*node+1) lo ((lo+hi)/2)) = a i
        rw [setF, if_neg (isDesc_ne_node_left node _ hdj),
            build_frame a m (2*node+2) ((lo+hi)/2+1) hi _ _
              (sibling_false_right node _ hdj)]
        exact ih (2*node+1) lo ((lo+hi)/2) s (by omega) hlo hs
      · rw [if_neg hs]
        have hdj := leafIdx_desc i m (2*node+2) ((lo+hi)/2+1) hi
        show setF (build a m (2*node+2) ((lo+hi)/2+1) hi
          (build a m (2*node+1) lo ((lo+hi)/2) s)).tree node _
            (leafIdx i m (2*node+2) ((lo+hi)/2+1) hi) = a i
        rw [setF, if_neg (isDesc_ne_node_right node _ hdj)]
        exact ih (2*node+2) ((lo+hi)/2+1) hi _ (by omega) (by omega) hhi

lemma merge_nullv_right (v : Int) (h : nullv ≤ v) : merge v nullv = v := by
  unfold merge
  by_cases h' : v > nullv
  · rw [if_pos h']
  · rw [if_neg h']; omega

lemma merge_nullv_left (v : Int) (h : nullv ≤ v) : merge nullv v = v := by
  unfold merge
  by_cases h' : nullv > v
  · omega
  · rw [if_neg h']

lemma queryAux_miss (x y : Nat) (fuel node lo hi : Nat) (s : St)
    (h : x > hi ∨ y < lo) : queryAux x y fuel node lo hi s = (nullv, s) := by
  cases fuel with
  | zero => rfl
  | succ m => simp only [queryAux, if_pos h]

/-- A point query on a state whose lazy buffer is clean below `4n` walks
straight to the leaf owning `i`, returns its stored value, and leaves the
state unchanged. -/
lemma queryAux_point_clean (i : Nat) : ∀ fuel node lo hi s d n,
    hi - lo < fuel → lo ≤ i → i ≤ hi →
    node+1 < 2^(d+1) → 2^d < 2*n → (hi-lo) * 2^d < n →
    (∀ j, j < 4*n → s.lazy j = nullv) →
    nullv ≤ s.tree (leafIdx i fuel node lo hi) →
    queryAux i i fuel node lo hi s =
      (s.tree (leafIdx i fuel node lo hi), s) := by
  intro fuel
  induction fuel with
  | zero => intro node lo hi s d n hf hlo hhi; omega
  | succ m ih =>
    intro node lo hi s d n hf hlo hhi h1 h2 h3 hclean hlb
    obtain ⟨hn4, hrest⟩ := bound_step d n node lo hi h1 h2 h3
    have hmiss : ¬(i > hi ∨ i < lo) := by omega
    by_cases hfull : i ≤ lo ∧ hi ≤ i
    · have hl : lo = hi := by omega
      simp only [queryAux, leafIdx, if_neg hmiss, if_pos hfull, if_pos hl,
                 if_pos (hclean node hn4)]
    · have hlt : lo < hi := by omega
      obtain ⟨hcc, hb1, hb2, hb3, hszL, hszR⟩ := hrest hlt
      have hlf : leafIdx i (m+1) node lo hi =
          (if i ≤ (lo+hi)/2 then leafIdx i m (2*node+1) lo ((lo+hi)/2)
           else leafIdx i m (2*node+2) ((lo+hi)/2+1) hi) := by
        simp only [leafIdx, if_neg (by omega : ¬ lo = hi)]
      simp only [queryAux, if_neg hmiss, if_neg hfull]
      rw [pushDown_nop node s (hclean node hn4)]
      by_cases hs : i ≤ (lo+hi)/2
      · rw [hlf, if_pos hs] at hlb ⊢
        rw [ih (2*node+1) lo ((lo+hi)/2) s (d+1) n (by omega) hlo hs hb1 hb3
              hszL hclean hlb]
        rw [queryAux_miss i i m (2*node+2) ((lo+hi)/2+1) hi s
              (by right; omega)]
        show (merge _ nullv, s) = _
        rw [merge_nullv_right _ hlb]
      · rw [hlf, if_neg hs] at hlb ⊢
        rw [queryAux_miss i i m (2*node+1) lo ((lo+hi)/2) s (by left; omega)]
        show (merge nullv (queryAux i i m (2*node+2) ((lo+hi)/2+1) hi
          ((nullv, s).2)).1, _) = _
        rw [ih (2*node+2) ((lo+hi)/2+1) hi s (d+1) n (by omega) (by omega)
              hhi hb2 hb3 hszR hclean hlb]
        show (merge nullv _, s) = _
        rw [merge_nullv_left _ hlb]

/-- C3: build correctness for point reads.  For every N > 0 and every
initial `int` array A of length N (machine ints satisfy `nullv ≤ A j`),
immediately after construction from A — whatever indeterminate contents
`t0`, `l0` the fresh buffers held — `at(i)` returns `A[i]` for every
index `i < N`.  The lazy buffer is clean after construction, so the point
query walks to the leaf owning `i`, which `build` seeded with `A[i]`. -/
theorem c3_at_after_build (n i : Nat) (A t0 l0 : Nat → Int) (hn : 0 < n)
    (hi : i < n) (hA : ∀ j, j < n → nullv ≤ A j) :
    (atIdx i (construct n A t0 l0)).1 = A i := by
  unfold atIdx query construct
  have hlen : (build A n 0 0 (n-1) (mkState n t0 l0)).len = n := by
    rw [build_len]; rfl
  rw [hlen]
  have hclean : ∀ j, j < 4*n →
      (build A n 0 0 (n-1) (mkState n t0 l0)).lazy j = nullv := by
    intro j hj
    rw [build_lazy]
    show (if j < 4*n then nullv else l0 j) = nullv
    rw [if_pos hj]
  have hleaf : (build A n 0 0 (n-1) (mkState n t0 l0)).tree
      (leafIdx i n 0 0 (n-1)) = A i :=
    build_leaf_value A i n 0 0 (n-1) (mkState n t0 l0) (by omega) (by omega)
      (by omega)
  have hq := queryAux_point_clean i n 0 0 (n-1) _ 0 n (by omega) (by omega)
    (by omega) (by norm_num) (by simp [pow_zero]; omega)
    (by simp [pow_zero]; omega) hclean (by rw [hleaf]; exact hA i hi)
  rw [hq]
  exact hleaf

/-- C3 witness: concretely, N = 2 and A = {3, 5} give `at(1) = 5`. -/
theorem c3_at_after_build_witness :
    (atIdx 1 (construct 2 arrA zeros zeros)).1 = arrA 1 :=
  c3_at_after_build 2 1 arrA zeros zeros (by decide) (by decide)
    (by decide)

/-- C5 (amended): whenever a query or update partly overlaps a node's
range and must recurse into its children (and the node has a pending lazy
value), both recursions first replace the state by `pushDown node s`,
which hands the node's pending value to both children by overwriting
(assigning over) each child's own pending value — not by merging into
it — and then clears the node's pending value. -/
theorem c5_push_down_amended (x y : Nat) (v : Int) (fuel node lo hi : Nat)
    (s : St) (hm : ¬(x > hi ∨ y < lo)) (hf : ¬(x ≤ lo ∧ hi ≤ y))
    (hl : s.lazy node ≠ nullv) :
    queryAux x y (fuel+1) node lo hi s =
      queryAux x y (fuel+1) node lo hi (pushDown node s) ∧
    updateAux x y v (fuel+1) node lo hi s =
      updateAux x y v (fuel+1) node lo hi (pushDown node s) ∧
    (pushDown node s).lazy (2*node+1) = s.lazy node ∧
    (pushDown node s).lazy (2*node+2) = s.lazy node ∧
    (pushDown node s).lazy node = nullv ∧
    (pushDown node s).tree = s.tree := by
  have hnd : ¬ lo = hi := by omega
  have hpp : pushDown node (pushDown node s) = pushDown node s :=
    pushDown_nop node _ (pushDown_lazy_node node s)
  refine ⟨?_, ?_, ?_, ?_, pushDown_lazy_node node s, pushDown_tree node s⟩
  · simp only [queryAux, if_neg hm, if_neg hf, hpp]
  · simp only [updateAux, if_neg hm, if_neg hnd, if_neg hf, hpp]
  · simp only [pushDown, if_neg hl, setF]
    rw [if_neg (by omega : ¬ (2*node+1 = node)),
        if_neg (by omega : ¬ (2*node+1 = 2*node+2))]
    simp
  · simp only [pushDown, if_neg hl, setF]
    rw [if_neg (by omega : ¬ (2*node+2 = node))]
    simp

/-- C5 witness: the amended push-down behaviour at a concrete state whose
root has pending value 5, for the point query/update bounds x = y = 0 over
the root range [0, 1]. -/
theorem c5_push_down_amended_witness :
    (queryAux 0 0 (1+1) 0 0 1 stEx =
      queryAux 0 0 (1+1) 0 0 1 (pushDown 0 stEx) ∧
    updateAux 0 0 3 (1+1) 0 0 1 stEx =
      updateAux 0 0 3 (1+1) 0 0 1 (pushDown 0 stEx) ∧
    (pushDown 0 stEx).lazy (2*0+1) = stEx.lazy 0 ∧
    (pushDown 0 stEx).lazy (2*0+2) = stEx.lazy 0 ∧
    (pushDown 0 stEx).lazy 0 = nullv ∧
    (pushDown 0 stEx).tree = stEx.tree) :=
  c5_push_down_amended 0 0 3 1 0 0 1 stEx (by decide) (by decide)
    (by decide)
